import Mathlib

/-!
# GDVG Admin Console — verification of the queue / harvest / enrichment core

A shallow embedding of the Python sources under `src/python/src/gdvg/` and
proofs of the spec's claims about them.

Conventions of the embedding:
* The persistence collaborator (Supabase/PostgREST) is modelled as a keyed
  table: a `List` of rows.  `upsert(batch, on_conflict=K)` is standard
  insert-on-conflict: a record whose conflict key `K` already appears in the
  table replaces that row's columns; otherwise the record is appended.
* Database writes issued by a queue function are returned as an explicit list
  of operations (one entry per issued batch), so that frame claims
  ("no store write for empty input") are directly statable and the effect of
  a call on a table is obtained by applying the returned batches.
* `datetime.utcnow()`-style timestamps are an abstract `Nat` passed in by the
  caller; ids from TMDB are `Int` (Python `int`).
* `async` functions are modelled by their data flow; completion order of
  concurrent tasks is an explicit argument where it could matter.
-/

namespace GDVG

/-! ## Configuration constants (src/python/src/gdvg/config.py) -/

/-- `DB_BATCH_SIZE_UPSERT: Final[int] = 500` -/
def DB_BATCH_SIZE_UPSERT : Nat := 500

/-- `TMDB_RATE_LIMIT_DELAY_MS: Final[int] = 50` -/
def TMDB_RATE_LIMIT_DELAY_MS : Nat := 50

/-- `TMDB_MAX_RETRIES: Final[int] = 5` -/
def TMDB_MAX_RETRIES : Nat := 5

/-- `ENRICHMENT_CYCLE_MAX: Final[int] = 8` (cycles are 0..8, so 9 buckets). -/
def ENRICHMENT_CYCLE_MAX : Nat := 8

/-! ## Batch slicing

`for i in range(0, len(records), DB_BATCH_SIZE_UPSERT): batch = records[i:i+DB_BATCH_SIZE_UPSERT]`
slices a list into consecutive chunks of at most `n` elements.  `chunksGo`
walks the list keeping the (reversed) current chunk and the remaining capacity
of that chunk. -/

def chunksGo (n : Nat) : List α → List α → Nat → List (List α)
  | [], acc, _ => if acc.isEmpty then [] else [acc.reverse]
  | x :: xs, acc, 0 => acc.reverse :: chunksGo n xs [x] (n - 1)
  | x :: xs, acc, k + 1 => chunksGo n xs (x :: acc) k

/-- The list of consecutive slices `l[i:i+n]` for `i = 0, n, 2n, ...`. -/
def chunksOf (n : Nat) (l : List α) : List (List α) :=
  chunksGo n l [] n

/-! ## Keyed upsert (the persistence collaborator)

`supabase.table(t).upsert(batch, on_conflict=K)`: each record of the batch is
inserted, and on a conflict of the key columns `K` the existing row's columns
are overwritten by the record's columns. -/

/-- One-record insert-on-conflict keyed by `key`. -/
def upsertBy [DecidableEq κ] (key : α → κ) (table : List α) (r : α) : List α :=
  if table.any (fun row => decide (key row = key r)) then
    table.map (fun row => if key row = key r then r else row)
  else
    table ++ [r]

/-- A whole-batch upsert is the records applied in order. -/
def upsertBatch [DecidableEq κ] (key : α → κ) (table : List α) (batch : List α) : List α :=
  batch.foldl (upsertBy key) table

/-- Applying the sequence of batches a queue function issued. -/
def applyBatches [DecidableEq κ] (key : α → κ) (table : List α)
    (batches : List (List α)) : List α :=
  batches.foldl (upsertBatch key) table

/-- Number of rows of `table` whose key is `k`. -/
def keyCount [DecidableEq κ] (key : α → κ) (table : List α) (k : κ) : Nat :=
  (table.filter fun row => decide (key row = k)).length

/-! ## Queue rows (tables `import_queue` and `enrichment_queue`)

The row structures carry exactly the columns the Python record dicts submit. -/

/-- A record submitted to `import_queue` by `add_to_import_queue`. -/
structure ImportRow where
  tmdb_id : Int
  content_type : String
  priority : Int
  status : String
  created_at : Nat
  deriving DecidableEq

/-- Conflict key of `import_queue`: `on_conflict="tmdb_id,content_type"`. -/
def importKey (r : ImportRow) : Int × String :=
  (r.tmdb_id, r.content_type)

/-- A record submitted to `enrichment_queue` by `add_to_enrichment_queue`. -/
structure EnrichRow where
  queue_type : String
  entity_id : String
  priority : Int
  status : String
  created_at : Nat
  deriving DecidableEq

/-- Conflict key of `enrichment_queue`: `on_conflict="queue_type,entity_id"`. -/
def enrichKey (r : EnrichRow) : String × String :=
  (r.queue_type, r.entity_id)

/-! ## Queue operations (src/python/src/gdvg/db/queue.py) -/

/-- `add_to_import_queue(tmdb_ids, content_type, priority)`.

Builds one `pending` record per id (all stamped with the same `now`), slices
them into batches of `DB_BATCH_SIZE_UPSERT` and upserts each batch with
`on_conflict="tmdb_id,content_type"`, accumulating `total_queued += len(batch)`.
Returns the issued upsert batches together with `total_queued`;
`if not tmdb_ids: return 0` issues nothing. -/
def add_to_import_queue (tmdb_ids : List Int) (content_type : String)
    (priority : Int) (now : Nat) : List (List ImportRow) × Nat :=
  if tmdb_ids.isEmpty then ([], 0)
  else
    let records := tmdb_ids.map fun tmdb_id =>
      ImportRow.mk tmdb_id content_type priority "pending" now
    (chunksOf DB_BATCH_SIZE_UPSERT records).foldl
      (fun st batch => (st.1 ++ [batch], st.2 + batch.length)) ([], 0)

/-- `add_to_enrichment_queue(queue_type, entity_ids, priority, cycle)`.

Identical batching, keyed `on_conflict="queue_type,entity_id"`.  Note the
`cycle` parameter is accepted but the submitted records carry no cycle column,
exactly as in the source. -/
def add_to_enrichment_queue (queue_type : String) (entity_ids : List String)
    (priority : Int) (cycle : Nat) (now : Nat) : List (List EnrichRow) × Nat :=
  if entity_ids.isEmpty then ([], 0)
  else
    let records := entity_ids.map fun entity_id =>
      EnrichRow.mk queue_type entity_id priority "pending" now
    (chunksOf DB_BATCH_SIZE_UPSERT records).foldl
      (fun st batch => (st.1 ++ [batch], st.2 + batch.length)) ([], 0)

/-- One `update ... in_("id", batch_ids)` call issued by
`mark_import_queue_completed` (sets `status="completed"`, `processed_at=now`). -/
structure CompleteImportOp where
  queue_ids : List String
  now : Nat
  deriving DecidableEq

/-- `mark_import_queue_completed(queue_ids)`: one update per
`DB_BATCH_SIZE_UPSERT`-slice of ids; `if not queue_ids: return` issues
nothing. -/
def mark_import_queue_completed (queue_ids : List String) (now : Nat) :
    List CompleteImportOp :=
  if queue_ids.isEmpty then []
  else
    (chunksOf DB_BATCH_SIZE_UPSERT queue_ids).foldl
      (fun ops batch => ops ++ [CompleteImportOp.mk batch now]) []

/-! ## Dequeue (src/python/src/gdvg/db/queue.py, `get_import_queue_batch`)

`select("*").eq("status","pending")[.eq("content_type", ct)]
 .order("priority", desc=True).order("created_at", desc=False).limit(limit)`:
the pending rows (optionally restricted to one content type), sorted by
priority descending then `created_at` ascending, truncated to `limit`. -/

/-- `a` is served no later than `b`: strictly higher priority, or equal
priority and created no later (the `ORDER BY priority DESC, created_at ASC`
order). -/
def importLE (a b : ImportRow) : Prop :=
  b.priority < a.priority ∨ (a.priority = b.priority ∧ a.created_at ≤ b.created_at)

instance : DecidableRel importLE := fun a b =>
  inferInstanceAs (Decidable (b.priority < a.priority ∨
    (a.priority = b.priority ∧ a.created_at ≤ b.created_at)))

instance : IsTotal ImportRow importLE :=
  ⟨by intro a b; unfold importLE; omega⟩

instance : IsTrans ImportRow importLE :=
  ⟨by intro a b c; unfold importLE; omega⟩

/-- The query before ordering and limiting:
`select("*").eq("status", "pending")` plus the optional
`.eq("content_type", content_type)`. -/
def pending_import_rows (table : List ImportRow) (content_type : Option String) :
    List ImportRow :=
  let q : List ImportRow := table.filter fun r => decide (r.status = "pending")
  match content_type with
  | some ct => q.filter fun r => decide (r.content_type = ct)
  | none => q

/-- `get_import_queue_batch(content_type, limit)` against table state `table`. -/
def get_import_queue_batch (table : List ImportRow) (content_type : Option String)
    (limit : Nat) : List ImportRow :=
  ((pending_import_rows table content_type).insertionSort importLE).take limit

/-- A stored row of `enrichment_queue` as the dequeue reads it: the submitted
columns plus the table's `cycle` column (which `add_to_enrichment_queue`'s
records leave to the database default). -/
structure EnrichQueueRow where
  queue_type : String
  entity_id : String
  priority : Int
  status : String
  created_at : Nat
  cycle : Nat
  deriving DecidableEq

/-- The `ORDER BY priority DESC, created_at ASC` order of the enrichment
queue. -/
def enrichLE (a b : EnrichQueueRow) : Prop :=
  b.priority < a.priority ∨ (a.priority = b.priority ∧ a.created_at ≤ b.created_at)

instance : DecidableRel enrichLE := fun a b =>
  inferInstanceAs (Decidable (b.priority < a.priority ∨
    (a.priority = b.priority ∧ a.created_at ≤ b.created_at)))

instance : IsTotal EnrichQueueRow enrichLE :=
  ⟨by intro a b; unfold enrichLE; omega⟩

instance : IsTrans EnrichQueueRow enrichLE :=
  ⟨by intro a b c; unfold enrichLE; omega⟩

/-- The enrichment query before ordering and limiting:
`.eq("queue_type", queue_type).eq("status", "pending")` plus the optional
`.eq("cycle", cycle)`. -/
def pending_enrich_rows (table : List EnrichQueueRow) (queue_type : String)
    (cycle : Option Nat) : List EnrichQueueRow :=
  let q : List EnrichQueueRow := table.filter fun r =>
    decide (r.queue_type = queue_type) && decide (r.status = "pending")
  match cycle with
  | some c => q.filter fun r => decide (r.cycle = c)
  | none => q

/-- `get_enrichment_queue_batch(queue_type, cycle, limit)` against table
state `table`. -/
def get_enrichment_queue_batch (table : List EnrichQueueRow) (queue_type : String)
    (cycle : Option Nat) (limit : Nat) : List EnrichQueueRow :=
  ((pending_enrich_rows table queue_type cycle).insertionSort enrichLE).take limit

/-! ## Adaptive rate limiter (src/python/src/gdvg/clients/tmdb.py, `TMDBRateLimiter`) -/

/-- `increase_delay`: `self.current_delay_ms = min(self.current_delay_ms * 2, 5000)`. -/
def increase_delay (current_delay_ms : Nat) : Nat :=
  min (current_delay_ms * 2) 5000

/-- The delay after `n` consecutive 429 responses (each one calling
`increase_delay`) starting from `base_delay_ms`, with no intervening
successful request (no `reset_delay`). -/
def delay_after_throttles (base_delay_ms : Nat) : Nat → Nat
  | 0 => base_delay_ms
  | n + 1 => increase_delay (delay_after_throttles base_delay_ms n)

/-! ## Harvest dedup (src/python/src/gdvg/harvester/id_harvester.py) -/

/-- Result of `IDHarvester.deduplicate_and_queue`: the set handed to
`add_to_import_queue`, the increment of `stats["duplicates_skipped"]`, and
the returned queued count. -/
structure DedupOutcome where
  new_ids : Finset Int
  duplicates_skipped : Nat
  queued : Nat
  deriving DecidableEq

/-- `deduplicate_and_queue(harvested_ids, content_type, priority)` with
`existing_ids = get_all_content_tmdb_ids(content_type)`:
`new_ids = harvested_ids - existing_ids` (Python set difference);
`duplicates_skipped += len(harvested_ids) - len(new_ids)`;
empty harvest or empty `new_ids` return 0, otherwise
`add_to_import_queue(list(new_ids), ...)` is the returned count.
`list(new_ids)` enumerates the Python set in unspecified order; the model
lists the set in ascending order (only length and membership are used). -/
def deduplicate_and_queue (harvested_ids existing_ids : Finset Int)
    (content_type : String) (priority : Int) (now : Nat) : DedupOutcome :=
  if harvested_ids = ∅ then ⟨∅, 0, 0⟩
  else
    let new_ids := harvested_ids \ existing_ids
    let skipped := harvested_ids.card - new_ids.card
    if new_ids = ∅ then ⟨new_ids, skipped, 0⟩
    else ⟨new_ids, skipped,
      (add_to_import_queue (new_ids.sort (· ≤ ·)) content_type priority now).2⟩

/-- `harvest_all_strategies`: `all_ids` is the union of the sets returned by
the discover, sequential and changes strategies, and is passed whole to
`deduplicate_and_queue`. -/
def harvest_all_ids (discover_ids sequential_ids changes_ids : Finset Int) : Finset Int :=
  discover_ids ∪ sequential_ids ∪ changes_ids

/-! ## Cycle scheduler

`run_enrich_content.py` / `run_enrich_people.py` import
`get_current_enrichment_cycle` and `advance_enrichment_cycle` from
`gdvg.db.queue` and call `advance_enrichment_cycle(queue_type,
stats["processed"])` once at the end of a run, but `src/` contains no
definition of either function — only these call sites. -/

/-- Modelled from the spec: the body of `advance_enrichment_cycle` is missing
from `src/` (it is imported from `gdvg.db.queue`, which does not define it).
Spec §4.3: "`advance(itemsProcessed)` moves the cursor to `(cursor+1) mod C`
once per invocation — one cycle step per run, independent of item volume."
The per-queue-class cursor held in the store is the explicit `cursor`
argument; `C = ENRICHMENT_CYCLE_MAX + 1 = 9` (cycles 0..8). -/
def advance_enrichment_cycle (cursor : Nat) (items_processed : Nat) : Nat :=
  (cursor + 1) % (ENRICHMENT_CYCLE_MAX + 1)

/-- The cycle values serviced by `n` consecutive runs of the default policy:
each run works the current cursor and then advances it once. -/
def cycles_of_runs (cursor : Nat) : Nat → List Nat
  | 0 => []
  | n + 1 => cursor :: cycles_of_runs (advance_enrichment_cycle cursor 0) n

/-! ## Request layer (src/python/src/gdvg/clients/tmdb.py `_request`,
src/python/src/gdvg/clients/wikipedia.py `_request_rest`)

Both are wrapped in
`@retry(stop=stop_after_attempt(N), wait=wait_exponential(...),
retry=retry_if_exception_type((httpx.HTTPStatusError, httpx.TimeoutException)),
reraise=True)`. -/

/-- The exceptions a single request can surface: `httpx.HTTPStatusError`
(carrying the HTTP status), `httpx.TimeoutException`, or a non-HTTP error
such as a malformed (undecodable) response body. -/
inductive RequestError where
  | httpStatus (code : Nat)
  | timeout
  | malformed
  deriving DecidableEq

/-- `retry_if_exception_type((httpx.HTTPStatusError, httpx.TimeoutException))`:
which errors the tenacity wrapper retries.  Every `HTTPStatusError` matches,
whatever its status code. -/
def retried_exception : RequestError → Bool
  | .httpStatus _ => true
  | .timeout => true
  | .malformed => false

/-- The tenacity loop: run attempt number `attempt` (0-based) with
`remaining` further attempts allowed; a retried exception with attempts left
recurses, anything else is returned (`reraise=True` re-raises the last
error).  Returns the outcome and the number of attempts performed. -/
def retry_go (f : Nat → Except RequestError α) :
    Nat → Nat → Except RequestError α × Nat
  | attempt, 0 => (f attempt, attempt + 1)
  | attempt, remaining + 1 =>
    match f attempt with
    | .ok v => (.ok v, attempt + 1)
    | .error e =>
      if retried_exception e then retry_go f (attempt + 1) remaining
      else (.error e, attempt + 1)

/-- `stop_after_attempt(max_attempts)` with `reraise=True` around the call
whose `n`-th try has outcome `f n`. -/
def run_with_retry (max_attempts : Nat) (f : Nat → Except RequestError α) :
    Except RequestError α × Nat :=
  retry_go f 0 (max_attempts - 1)

/-- `wait_exponential(multiplier=2.0, min=1, max=30)` of the TMDB `_request`
wrapper: the wait (in seconds) before retrying after failed attempt `k`
(1-based) is the doubling sequence `2 * 2^(k-1)` clamped into `[1, 30]`. -/
def retry_wait_s (k : Nat) : Nat :=
  max 1 (min (2 * 2 ^ (k - 1)) 30)

/-- Response handling of `TMDBClient._request`: a 429 calls
`rate_limiter.increase_delay()` and raises `HTTPStatusError`;
`response.raise_for_status()` raises `HTTPStatusError` for every other
status ≥ 400; otherwise the JSON body is returned. -/
def tmdb_request_outcome (status : Nat) (body : α) : Except RequestError α :=
  if status = 429 then .error (.httpStatus 429)
  else if 400 ≤ status then .error (.httpStatus status)
  else .ok body

/-- Response handling of `WikipediaClient._request_rest`:
`raise_for_status()` raises for status ≥ 400, but the handler catches
`HTTPStatusError` and returns `{}` (modelled `none`) when the status is 404,
re-raising every other status error; a 2xx returns the body. -/
def wikipedia_request_rest_outcome (status : Nat) (body : α) :
    Except RequestError (Option α) :=
  if 400 ≤ status then
    if status = 404 then .ok none
    else .error (.httpStatus status)
  else .ok (some body)

/-! ## Concurrent batch fetch

`ContentEnricher.enrich_batch` (src/python/src/gdvg/enrichment/content_enricher.py):
`enriched = [None] * len(items)`; each task writes `enriched[idx] = result`
on completion, where `result` is `None` when `enrich_content` caught the
item's exception; finally the `None`s are filtered out.
`TMDBClient.get_content_details_batch` (src/python/src/gdvg/clients/tmdb.py):
`asyncio.gather(*tasks, return_exceptions=False)` — a single task's exception
is propagated to the whole `gather` call. -/

/-- The `except Exception: return None` envelope of
`ContentEnricher.enrich_content`: a failed fetch becomes `None`, a successful
fetch is extracted into the content dict. -/
def enrich_content_outcome (fetch : Except RequestError α) (extract : α → β) :
    Option β :=
  match fetch with
  | .ok d => some (extract d)
  | .error _ => none

/-- The slot array of `enrich_batch` after all tasks completed: task `i`
writes slot `i` (`enriched[idx] = result`), in whatever order the tasks
finish. -/
def run_enrich_batch (M : Nat) (result : Fin M → Option α)
    (completion_order : List (Fin M)) : List (Option α) :=
  completion_order.foldl (fun slots i => slots.set i.val (result i))
    (List.replicate M none)

/-- The value `enrich_batch` returns:
`[r for r in enriched if r is not None]`. -/
def enrich_batch_returned (M : Nat) (result : Fin M → Option α)
    (completion_order : List (Fin M)) : List α :=
  (run_enrich_batch M result completion_order).filterMap id

/-- `asyncio.gather(*tasks, return_exceptions=False)`: if every task
succeeds, the list of results in task order; if any task raises, the
exception propagates out of the whole call (the first failure in task order
stands in for the first-raised one). -/
def gather_strict : List (Except RequestError α) → Except RequestError (List α)
  | [] => .ok []
  | t :: ts =>
    match t with
    | .error e => .error e
    | .ok v =>
      match gather_strict ts with
      | .ok vs => .ok (v :: vs)
      | .error e => .error e

/-- `TMDBClient.get_content_details_batch` with the per-item fetch outcomes
as input. -/
def get_content_details_batch (tasks : List (Except RequestError α)) :
    Except RequestError (List α) :=
  gather_strict tasks

/-! ## Overview richness override
(src/python/src/gdvg/enrichment/wiki_enricher.py, `WikiEnricher.enrich_content`)

```
if wiki_overview:
    use_wiki = (not current_overview
                or len(wiki_overview) > len(current_overview) * 2)
    if use_wiki:
        enrichment["overview"] = wiki_overview
        enrichment["overview_source"] = "wikipedia"
```
-/

/-- The `(overview, overview_source)` update the merge writes, if any.
`current_overview` is `Optional[str]`; Python's `not current_overview` is
true for both `None` and `""`. -/
def wiki_overview_update (wiki_overview : String) (current_overview : Option String) :
    Option (String × String) :=
  if wiki_overview = "" then none
  else if current_overview.getD "" = "" ∨
      wiki_overview.length > (current_overview.getD "").length * 2 then
    some (wiki_overview, "wikipedia")
  else none

/-! ## General lemmas -/

theorem foldl_chunksGo (n : Nat) (f : β → α → β) :
    ∀ (l acc : List α) (k : Nat) (b : β),
      (chunksGo n l acc k).foldl (fun t c => c.foldl f t) b =
        (acc.reverse ++ l).foldl f b := by
  intro l
  induction l with
  | nil =>
    intro acc k b
    by_cases h : acc.isEmpty
    · simp [chunksGo, h, List.isEmpty_iff.mp h]
    · simp [chunksGo, h]
  | cons x xs ih =>
    intro acc k b
    match k with
    | 0 => simp [chunksGo, ih, List.foldl_append]
    | k + 1 =>
      have : (x :: acc).reverse ++ xs = acc.reverse ++ x :: xs := by simp
      simp only [chunksGo, ih, this]

/-- Applying the chunked batches one after another is the same as folding the
original list: the `DB_BATCH_SIZE_UPSERT` slicing does not change the net
effect on the table. -/
theorem foldl_chunksOf (n : Nat) (f : β → α → β) (l : List α) (b : β) :
    (chunksOf n l).foldl (fun t c => c.foldl f t) b = l.foldl f b := by
  simpa using foldl_chunksGo n f l [] n b

theorem sum_length_chunksGo (n : Nat) :
    ∀ (l acc : List α) (k : Nat),
      ((chunksGo n l acc k).map List.length).sum = acc.length + l.length := by
  intro l
  induction l with
  | nil =>
    intro acc k
    by_cases h : acc.isEmpty
    · simp [chunksGo, h, List.isEmpty_iff.mp h]
    · simp [chunksGo, h]
  | cons x xs ih =>
    intro acc k
    match k with
    | 0 => simp [chunksGo, ih]; omega
    | k + 1 => simp [chunksGo, ih]; omega

/-- The chunk lengths of `chunksOf n l` sum to `l.length`. -/
theorem sum_length_chunksOf (n : Nat) (l : List α) :
    ((chunksOf n l).map List.length).sum = l.length := by
  simpa using sum_length_chunksGo n l [] n

theorem keyCount_eq_zero_iff [DecidableEq κ] (key : α → κ) (table : List α) (k : κ) :
    keyCount key table k = 0 ↔ ∀ row ∈ table, key row ≠ k := by
  simp [keyCount, List.length_eq_zero, List.filter_eq_nil_iff]

/-- If the key is absent, the upsert is a plain append. -/
theorem upsertBy_of_absent [DecidableEq κ] (key : α → κ) (table : List α) (r : α)
    (h : keyCount key table (key r) = 0) :
    upsertBy key table r = table ++ [r] := by
  have h' := (keyCount_eq_zero_iff key table (key r)).mp h
  have : table.any (fun row => decide (key row = key r)) = false := by
    simp only [List.any_eq_false]
    intro row hrow
    simp [h' row hrow]
  simp [upsertBy, this]

/-- If some row already carries the key, the upsert rewrites every row with
that key to the incoming record and touches nothing else. -/
theorem upsertBy_of_present [DecidableEq κ] (key : α → κ) (table : List α) (r : α)
    (h : ∃ row ∈ table, key row = key r) :
    upsertBy key table r = table.map (fun row => if key row = key r then r else row) := by
  have : table.any (fun row => decide (key row = key r)) = true := by
    rcases h with ⟨row, hrow, hk⟩
    exact List.any_eq_true.mpr ⟨row, hrow, by simp [hk]⟩
  simp [upsertBy, this]

/-- After the overwrite pass, the rows carrying key `key r` are exactly one
copy of `r` per row that carried the key before. -/
theorem filter_map_overwrite [DecidableEq κ] (key : α → κ) (r : α) :
    ∀ table : List α,
      ((table.map fun row => if key row = key r then r else row).filter
          fun row => decide (key row = key r)) =
        List.replicate (keyCount key table (key r)) r := by
  intro table
  induction table with
  | nil => simp [keyCount]
  | cons a t ih =>
    by_cases h : key a = key r
    · simp [keyCount, List.filter_cons, h, List.replicate_succ] at ih ⊢
      exact ih
    · simp [keyCount, List.filter_cons, h] at ih ⊢
      exact ih

/-- The operation-list component of the batching fold. -/
theorem fold_batches_fst (g : List α → β) :
    ∀ (bs : List (List α)) (ops : List β) (t : Nat),
      (bs.foldl (fun st batch => (st.1 ++ [g batch], st.2 + batch.length)) (ops, t)).1 =
        ops ++ bs.map g := by
  intro bs
  induction bs with
  | nil => simp
  | cons b bs ih => intro ops t; simp [ih]

/-- The count component of the batching fold. -/
theorem fold_batches_snd (g : List α → β) :
    ∀ (bs : List (List α)) (ops : List β) (t : Nat),
      (bs.foldl (fun st batch => (st.1 ++ [g batch], st.2 + batch.length)) (ops, t)).2 =
        t + (bs.map List.length).sum := by
  intro bs
  induction bs with
  | nil => simp
  | cons b bs ih => intro ops t; simp [ih]; omega

theorem add_to_import_queue_batches (tmdb_ids : List Int) (content_type : String)
    (priority : Int) (now : Nat) (h : ¬tmdb_ids.isEmpty) :
    add_to_import_queue tmdb_ids content_type priority now =
      (chunksOf DB_BATCH_SIZE_UPSERT
          (tmdb_ids.map fun tmdb_id =>
            ImportRow.mk tmdb_id content_type priority "pending" now),
        tmdb_ids.length) := by
  have h1 := fold_batches_fst (α := ImportRow) id
    (chunksOf DB_BATCH_SIZE_UPSERT
      (tmdb_ids.map fun tmdb_id => ImportRow.mk tmdb_id content_type priority "pending" now))
    [] 0
  have h2 := fold_batches_snd (α := ImportRow) (β := List ImportRow) id
    (chunksOf DB_BATCH_SIZE_UPSERT
      (tmdb_ids.map fun tmdb_id => ImportRow.mk tmdb_id content_type priority "pending" now))
    [] 0
  simp only [add_to_import_queue, if_neg h]
  refine Prod.ext ?_ ?_
  · simpa using h1
  · simp only [List.map_id] at h2
    simpa [sum_length_chunksOf] using h2

/-- `ORDER BY .. LIMIT n` semantics: the truncated sorted list is no longer
than `n`, is sorted, draws its elements from the query, and everything it
leaves out sorts no earlier than everything it returns. -/
theorem take_insertionSort_spec {α : Type} (r : α → α → Prop) [DecidableRel r]
    [IsTotal α r] [IsTrans α r] (q : List α) (limit : Nat) :
    ((q.insertionSort r).take limit).length ≤ limit ∧
    ((q.insertionSort r).take limit).Sorted r ∧
    (∀ a ∈ (q.insertionSort r).take limit, a ∈ q) ∧
    (∀ a ∈ (q.insertionSort r).take limit, ∀ b ∈ q,
      b ∉ (q.insertionSort r).take limit → r a b) := by
  have hsorted := List.sorted_insertionSort r q
  refine ⟨?_, ?_, ?_, ?_⟩
  · simp [List.length_take]
  · exact List.Pairwise.sublist (List.take_sublist _ _) hsorted
  · intro a ha
    exact (List.mem_insertionSort r).mp (List.mem_of_mem_take ha)
  · intro a ha b hb hbnot
    have hb' : b ∈ q.insertionSort r := (List.mem_insertionSort r).mpr hb
    rw [← List.take_append_drop limit (q.insertionSort r)] at hb'
    have hbdrop : b ∈ (q.insertionSort r).drop limit := by
      rcases List.mem_append.mp hb' with h | h
      · exact absurd h hbnot
      · exact h
    have := hsorted
    rw [← List.take_append_drop limit (q.insertionSort r)] at this
    exact (List.pairwise_append.mp this).2.2 a ha b hbdrop

/-! ## Claim theorems -/

/-- C10: for the empty input list, `add_to_import_queue` and
`add_to_enrichment_queue` return 0 and issue no store write, and
`mark_import_queue_completed` issues no store update. -/
theorem empty_input_queue_calls_are_noops :
    (∀ content_type priority now,
      add_to_import_queue [] content_type priority now = ([], 0)) ∧
    (∀ queue_type priority cycle now,
      add_to_enrichment_queue queue_type [] priority cycle now = ([], 0)) ∧
    (∀ now, mark_import_queue_completed [] now = []) :=
  ⟨fun _ _ _ => rfl, fun _ _ _ _ => rfl, fun _ => rfl⟩

/-- C8: starting from `current_delay_ms = base_delay_ms` (≤ the 5000 ms cap),
`N` consecutive 429 throttle signals with no intervening success leave
`current_delay_ms = min(base * 2^N, 5000)`. -/
theorem delay_after_throttles_eq (base_delay_ms N : Nat)
    (h : base_delay_ms ≤ 5000) :
    delay_after_throttles base_delay_ms N = min (base_delay_ms * 2 ^ N) 5000 := by
  induction N with
  | zero =>
    simp [delay_after_throttles, Nat.min_eq_left h]
  | succ n ih =>
    have hp : base_delay_ms * 2 ^ (n + 1) = base_delay_ms * 2 ^ n * 2 := by ring
    rw [delay_after_throttles, ih, increase_delay, hp]
    generalize base_delay_ms * 2 ^ n = x
    omega

/-- C8 witness: the TMDB limiter's base delay of 50 ms after 3 throttles. -/
theorem delay_after_throttles_eq_witness :
    TMDB_RATE_LIMIT_DELAY_MS ≤ 5000 ∧
    delay_after_throttles TMDB_RATE_LIMIT_DELAY_MS 3 =
      min (TMDB_RATE_LIMIT_DELAY_MS * 2 ^ 3) 5000 :=
  ⟨by decide, delay_after_throttles_eq TMDB_RATE_LIMIT_DELAY_MS 3 (by decide)⟩

/-- C3: `advance_enrichment_cycle` moves the cursor to `(cursor+1) mod 9`,
exactly one step per run and independently of the number of items the run
processed; hence over 9 consecutive runs of the default policy every cycle
value 0..8 is visited exactly once. -/
theorem advance_cycle_round_robin :
    (∀ cursor i j,
      advance_enrichment_cycle cursor i = advance_enrichment_cycle cursor j) ∧
    (∀ cursor items_processed,
      advance_enrichment_cycle cursor items_processed = (cursor + 1) % 9) ∧
    (∀ cursor, cursor < 9 → ∀ k, k < 9 → (cycles_of_runs cursor 9).count k = 1) := by
  refine ⟨fun _ _ _ => rfl, fun _ _ => rfl, ?_⟩
  decide

/-- C3 witness: starting the cursor at 2, nine runs visit cycle 7 exactly
once. -/
theorem advance_cycle_round_robin_witness :
    2 < 9 ∧ 7 < 9 ∧ (cycles_of_runs 2 9).count 7 = 1 :=
  ⟨by decide, by decide,
    advance_cycle_round_robin.2.2 2 (by decide) 7 (by decide)⟩

/-- C2: a harvest pass enqueues exactly `(A ∪ B ∪ C) \ S` — the union of the
three strategies' id sets minus the corpus — and in the concrete scenario,
harvest `{101,102,103}` against corpus `{102}` enqueues `{101,103}` and
reports 1 duplicate skipped. -/
theorem harvest_dedup_set_difference :
    (∀ (A B C S : Finset Int) (content_type : String) (priority : Int) (now : Nat),
      (deduplicate_and_queue (harvest_all_ids A B C) S content_type priority now).new_ids
          = (A ∪ B ∪ C) \ S ∧
      (deduplicate_and_queue (harvest_all_ids A B C) S content_type priority now).queued
          = ((A ∪ B ∪ C) \ S).card) ∧
    ((deduplicate_and_queue {101, 102, 103} {102} "movie" 5 0).new_ids
        = ({101, 103} : Finset Int) ∧
     (deduplicate_and_queue {101, 102, 103} {102} "movie" 5 0).duplicates_skipped = 1) := by
  constructor
  · intro A B C S content_type priority now
    unfold deduplicate_and_queue harvest_all_ids
    by_cases hU : A ∪ B ∪ C = (∅ : Finset Int)
    · rw [if_pos hU, hU]
      simp
    · rw [if_neg hU]
      by_cases hN : (A ∪ B ∪ C) \ S = (∅ : Finset Int)
      · rw [if_pos hN, hN]
        simp
      · have hne : ¬(((A ∪ B ∪ C) \ S).sort (· ≤ ·)).isEmpty := by
          intro h
          have h0 : ((A ∪ B ∪ C) \ S).sort (· ≤ ·) = [] := List.isEmpty_iff.mp h
          have hlen := Finset.length_sort (α := ℤ) (· ≤ ·) (s := (A ∪ B ∪ C) \ S)
          rw [h0] at hlen
          simp only [List.length_nil] at hlen
          exact hN (Finset.card_eq_zero.mp hlen.symm)
        rw [if_neg hN]
        refine ⟨rfl, ?_⟩
        simp only [add_to_import_queue_batches _ _ _ _ hne]
        rw [Finset.length_sort]
  · constructor
    · decide
    · decide

theorem add_to_enrichment_queue_batches (queue_type : String)
    (entity_ids : List String) (priority : Int) (cycle : Nat) (now : Nat)
    (h : ¬entity_ids.isEmpty) :
    add_to_enrichment_queue queue_type entity_ids priority cycle now =
      (chunksOf DB_BATCH_SIZE_UPSERT
          (entity_ids.map fun entity_id =>
            EnrichRow.mk queue_type entity_id priority "pending" now),
        entity_ids.length) := by
  have h1 := fold_batches_fst (α := EnrichRow) id
    (chunksOf DB_BATCH_SIZE_UPSERT
      (entity_ids.map fun entity_id =>
        EnrichRow.mk queue_type entity_id priority "pending" now))
    [] 0
  have h2 := fold_batches_snd (α := EnrichRow) (β := List EnrichRow) id
    (chunksOf DB_BATCH_SIZE_UPSERT
      (entity_ids.map fun entity_id =>
        EnrichRow.mk queue_type entity_id priority "pending" now))
    [] 0
  simp only [add_to_enrichment_queue, if_neg h]
  refine Prod.ext ?_ ?_
  · simpa using h1
  · simp only [List.map_id] at h2
    simpa [sum_length_chunksOf] using h2

theorem chunksOf_singleton (n : Nat) (a : α) (h : 1 ≤ n) :
    chunksOf n [a] = [[a]] := by
  obtain ⟨m, rfl⟩ : ∃ m, n = m + 1 := ⟨n - 1, by omega⟩
  simp [chunksOf, chunksGo]

/-- Upserting a fresh key and then the same key again leaves exactly one row
with that key: the second record, whole. -/
theorem upsertBy_twice_filter [DecidableEq κ] (key : α → κ) (table : List α)
    (r1 r2 : α) (hk : key r1 = key r2)
    (h : keyCount key table (key r2) = 0) :
    ((upsertBy key (upsertBy key table r1) r2).filter
        fun row => decide (key row = key r2)) = [r2] := by
  have h1 : keyCount key table (key r1) = 0 := by rw [hk]; exact h
  rw [upsertBy_of_absent key table r1 h1]
  have hpres : ∃ row ∈ table ++ [r1], key row = key r2 :=
    ⟨r1, by simp, hk⟩
  rw [upsertBy_of_present key _ r2 hpres, filter_map_overwrite]
  have hcount : keyCount key (table ++ [r1]) (key r2) = 1 := by
    have hfil : table.filter (fun row => decide (key row = key r2)) = [] := by
      have := (keyCount_eq_zero_iff key table (key r2)).mp h
      exact List.filter_eq_nil_iff.mpr (by simpa using this)
    simp [keyCount, List.filter_append, hfil, hk]
  rw [hcount]
  rfl

/-- C1 counterexample: enqueue tmdb id 550 as a movie with priority 5, then
again with priority 3.  One row remains, but its priority is 3 — the latest
enqueued value — not `max 5 3 = 5`: the `upsert(..., on_conflict=...)` call
overwrites the priority column instead of raising it. -/
theorem requeue_priority_counterexample :
    applyBatches importKey
        (applyBatches importKey [] (add_to_import_queue [550] "movie" 5 0).1)
        (add_to_import_queue [550] "movie" 3 1).1
      = [ImportRow.mk 550 "movie" 3 "pending" 1] ∧
    ¬((3 : Int) = max 5 3) := by
  constructor
  · decide
  · decide

/-- C1 amended: enqueuing a fresh natural key twice (priorities `p1` then
`p2`) leaves exactly one row for that key in the queue, and that row is the
second record whole: its priority is `p2`, the priority of the most recent
enqueue, not `max p1 p2`.  This holds for the import queue and the
enrichment queue alike. -/
theorem requeue_single_row_latest_priority
    (table : List ImportRow) (tmdb_id : Int) (ct : String) (p1 p2 : Int)
    (t1 t2 : Nat) (h : keyCount importKey table (tmdb_id, ct) = 0) :
    ((applyBatches importKey
          (applyBatches importKey table (add_to_import_queue [tmdb_id] ct p1 t1).1)
          (add_to_import_queue [tmdb_id] ct p2 t2).1).filter
        fun r => decide (importKey r = (tmdb_id, ct)))
      = [ImportRow.mk tmdb_id ct p2 "pending" t2] ∧
    ∀ (etable : List EnrichRow) (qt eid : String) (c1 c2 : Nat),
      keyCount enrichKey etable (qt, eid) = 0 →
      ((applyBatches enrichKey
            (applyBatches enrichKey etable
              (add_to_enrichment_queue qt [eid] p1 c1 t1).1)
            (add_to_enrichment_queue qt [eid] p2 c2 t2).1).filter
          fun r => decide (enrichKey r = (qt, eid)))
        = [EnrichRow.mk qt eid p2 "pending" t2] := by
  constructor
  · have hb1 := add_to_import_queue_batches [tmdb_id] ct p1 t1 (by simp)
    have hb2 := add_to_import_queue_batches [tmdb_id] ct p2 t2 (by simp)
    rw [hb1, hb2]
    simp only [List.map_cons, List.map_nil,
      chunksOf_singleton DB_BATCH_SIZE_UPSERT _ (by decide)]
    show ((upsertBy importKey (upsertBy importKey table
        (ImportRow.mk tmdb_id ct p1 "pending" t1))
        (ImportRow.mk tmdb_id ct p2 "pending" t2)).filter
        fun r => decide (importKey r = (tmdb_id, ct))) = _
    exact upsertBy_twice_filter importKey table
      (ImportRow.mk tmdb_id ct p1 "pending" t1)
      (ImportRow.mk tmdb_id ct p2 "pending" t2) rfl h
  · intro etable qt eid c1 c2 he
    have hb1 := add_to_enrichment_queue_batches qt [eid] p1 c1 t1 (by simp)
    have hb2 := add_to_enrichment_queue_batches qt [eid] p2 c2 t2 (by simp)
    rw [hb1, hb2]
    simp only [List.map_cons, List.map_nil,
      chunksOf_singleton DB_BATCH_SIZE_UPSERT _ (by decide)]
    show ((upsertBy enrichKey (upsertBy enrichKey etable
        (EnrichRow.mk qt eid p1 "pending" t1))
        (EnrichRow.mk qt eid p2 "pending" t2)).filter
        fun r => decide (enrichKey r = (qt, eid))) = _
    exact upsertBy_twice_filter enrichKey etable
      (EnrichRow.mk qt eid p1 "pending" t1)
      (EnrichRow.mk qt eid p2 "pending" t2) rfl he

/-- C1 amended witness: both queues at a concrete fresh key. -/
theorem requeue_single_row_latest_priority_witness :
    keyCount importKey [] ((7 : Int), "tv") = 0 ∧
    ((applyBatches importKey
          (applyBatches importKey [] (add_to_import_queue [7] "tv" 2 0).1)
          (add_to_import_queue [7] "tv" 9 1).1).filter
        fun r => decide (importKey r = ((7 : Int), "tv")))
      = [ImportRow.mk 7 "tv" 9 "pending" 1] ∧
    ((applyBatches enrichKey
          (applyBatches enrichKey [] (add_to_enrichment_queue "content" ["e1"] 2 0 0).1)
          (add_to_enrichment_queue "content" ["e1"] 9 0 1).1).filter
        fun r => decide (enrichKey r = ("content", "e1")))
      = [EnrichRow.mk "content" "e1" 9 "pending" 1] :=
  ⟨by decide,
   (requeue_single_row_latest_priority [] 7 "tv" 2 9 0 1 (by decide)).1,
   (requeue_single_row_latest_priority [] 7 "tv" 2 9 0 1 (by decide)).2
     [] "content" "e1" 0 0 (by decide)⟩

/-- A call that keeps failing with a retried exception is attempted on every
allowed try and the last error is returned. -/
theorem retry_go_const_error {α : Type} (e : RequestError)
    (he : retried_exception e = true) :
    ∀ (remaining attempt : Nat),
      retry_go (fun _ => (Except.error e : Except RequestError α)) attempt remaining
        = (Except.error e, attempt + remaining + 1) := by
  intro remaining
  induction remaining with
  | zero => intro attempt; rfl
  | succ r ih =>
    intro attempt
    simp only [retry_go, he, if_true]
    rw [ih (attempt + 1)]
    refine Prod.ext rfl ?_
    simp
    omega

/-- C5 counterexample: a permanent HTTP 400 response.  The tenacity predicate
`retry_if_exception_type((httpx.HTTPStatusError, httpx.TimeoutException))`
matches every `HTTPStatusError`, so the request is attempted all
`TMDB_MAX_RETRIES = 5` times instead of failing immediately (1 attempt) as
the claim requires for a permanent failure. -/
theorem permanent_4xx_retried_counterexample :
    retried_exception (RequestError.httpStatus 400) = true ∧
    run_with_retry TMDB_MAX_RETRIES
        (fun _ => (Except.error (RequestError.httpStatus 400) : Except RequestError Unit))
      = (Except.error (RequestError.httpStatus 400), 5) ∧
    ¬(5 : Nat) = 1 := by
  refine ⟨rfl, ?_, by decide⟩
  rfl

/-- C5 amended: the retry predicate matches timeouts and every
`HTTPStatusError` — 5xx and 429, but also every other 4xx; such failures are
retried up to `max_attempts` times with the doubling-capped backoff schedule,
and exhaustion re-raises the last error.  Only non-HTTP failures (e.g. a
malformed response body) fail immediately with no retry, as does a first-try
success. -/
theorem request_retry_policy :
    (retried_exception RequestError.timeout = true ∧
     (∀ code, retried_exception (RequestError.httpStatus code) = true) ∧
     retried_exception RequestError.malformed = false) ∧
    (∀ (e : RequestError) (N : Nat), retried_exception e = true → 1 ≤ N →
      run_with_retry N (fun _ => (Except.error e : Except RequestError Unit))
        = (Except.error e, N)) ∧
    (∀ (N : Nat) (f : Nat → Except RequestError Unit) (e : RequestError),
      retried_exception e = false → f 0 = Except.error e →
      run_with_retry N f = (Except.error e, 1)) ∧
    (∀ (N : Nat) (f : Nat → Except RequestError Unit) (v : Unit),
      f 0 = Except.ok v → run_with_retry N f = (Except.ok v, 1)) ∧
    (∀ k, 1 ≤ k → retry_wait_s (k + 1) = min (2 * retry_wait_s k) 30) := by
  refine ⟨⟨rfl, fun _ => rfl, rfl⟩, ?_, ?_, ?_, ?_⟩
  · intro e N he hN
    rw [run_with_retry, retry_go_const_error e he]
    refine Prod.ext rfl ?_
    simp
    omega
  · intro N f e he hf
    rw [run_with_retry]
    match N - 1 with
    | 0 => simp [retry_go, hf]
    | r + 1 => simp [retry_go, hf, he]
  · intro N f v hf
    rw [run_with_retry]
    match N - 1 with
    | 0 => simp [retry_go, hf]
    | r + 1 => simp [retry_go, hf]
  · intro k hk
    obtain ⟨m, rfl⟩ : ∃ m, k = m + 1 := ⟨k - 1, by omega⟩
    simp only [retry_wait_s, Nat.add_sub_cancel]
    rw [pow_succ]
    have h1 : 1 ≤ 2 ^ m := Nat.one_le_two_pow
    generalize 2 ^ m = x at h1
    omega

/-- C5 amended witness: a request that times out every try under the TMDB
policy is attempted all 5 times and the timeout is re-raised. -/
theorem request_retry_policy_witness :
    retried_exception RequestError.timeout = true ∧ 1 ≤ TMDB_MAX_RETRIES ∧
    run_with_retry TMDB_MAX_RETRIES
        (fun _ => (Except.error RequestError.timeout : Except RequestError Unit))
      = (Except.error RequestError.timeout, TMDB_MAX_RETRIES) :=
  ⟨rfl, by decide,
    request_retry_policy.2.1 RequestError.timeout TMDB_MAX_RETRIES rfl (by decide)⟩

/-- C9 counterexample: a 404 on a TMDB lookup (`TMDBClient._request`) is not
a valid empty result: `raise_for_status()` raises `HTTPStatusError`, the
retry predicate matches it, and all 5 attempts are spent before the error is
re-raised to the caller. -/
theorem tmdb_404_raised_and_retried_counterexample :
    tmdb_request_outcome 404 () = Except.error (RequestError.httpStatus 404) ∧
    retried_exception (RequestError.httpStatus 404) = true ∧
    run_with_retry TMDB_MAX_RETRIES (fun _ => tmdb_request_outcome 404 ())
      = (Except.error (RequestError.httpStatus 404), 5) :=
  ⟨rfl, rfl, rfl⟩

/-- C9 amended: the Wikipedia REST client treats 404 as a valid empty result
— `_request_rest` catches the status error and returns `{}` to the caller on
the first attempt, with nothing raised or retried; the TMDB client instead
raises 404 as an `HTTPStatusError`, which its retry policy then retries. -/
theorem wikipedia_404_empty_result :
    (∀ (α : Type) (body : α),
      wikipedia_request_rest_outcome 404 body = Except.ok none) ∧
    (∀ (α : Type) (body : α) (N : Nat),
      run_with_retry N (fun _ => wikipedia_request_rest_outcome 404 body)
        = (Except.ok none, 1)) ∧
    (∀ (α : Type) (body : α),
      tmdb_request_outcome 404 body = Except.error (RequestError.httpStatus 404) ∧
      retried_exception (RequestError.httpStatus 404) = true) := by
  refine ⟨fun _ _ => rfl, ?_, fun _ _ => ⟨rfl, rfl⟩⟩
  intro α body N
  rw [run_with_retry]
  match N - 1 with
  | 0 => rfl
  | r + 1 => rfl

theorem string_length_zero_iff (s : String) : s.length = 0 ↔ s = "" := by
  constructor
  · intro h
    cases s with
    | mk data =>
      simp [String.length] at h
      simp [h]
  · intro h
    simp [h]

/-- C6 counterexample: with an empty primary (`L1 = 0`) and an empty
secondary (`L2 = 0`), the claim's condition `L2 > 2*L1 or L1 == 0` holds,
but the code's `if wiki_overview:` guard skips the override entirely — no
overwrite happens and no `overview_source` is recorded. -/
theorem richness_override_empty_counterexample :
    wiki_overview_update "" (some "") = none ∧ ("" : String).length = 0 :=
  ⟨rfl, rfl⟩

/-- C6 amended: the secondary overwrites the primary if and only if
`L2 > 0` and (`L2 > 2*L1` or `L1 == 0`), where `L1` counts an absent
(`None`) primary as empty; when it overwrites, the update is exactly the
secondary text with `overview_source = "wikipedia"`. -/
theorem richness_override_rule :
    (∀ (wiki_overview : String) (current_overview : Option String),
      wiki_overview_update wiki_overview current_overview = none ∨
      wiki_overview_update wiki_overview current_overview
        = some (wiki_overview, "wikipedia")) ∧
    (∀ (wiki_overview : String) (current_overview : Option String),
      (wiki_overview_update wiki_overview current_overview).isSome = true ↔
        0 < wiki_overview.length ∧
          ((current_overview.getD "").length = 0 ∨
            2 * (current_overview.getD "").length < wiki_overview.length)) := by
  constructor
  · intro w c
    unfold wiki_overview_update
    split_ifs <;> simp
  · intro w c
    unfold wiki_overview_update
    split_ifs with h1 h2
    · subst h1
      simp
    · simp only [Option.isSome_some, true_iff]
      refine ⟨?_, ?_⟩
      · exact Nat.pos_of_ne_zero fun h0 => h1 ((string_length_zero_iff w).mp h0)
      · rcases h2 with h2 | h2
        · exact Or.inl ((string_length_zero_iff _).mpr h2)
        · right
          omega
    · simp only [Option.isSome_none, Bool.false_eq_true, false_iff]
      push_neg at h2
      rintro ⟨hw, hd | hd⟩
      · exact h2.1 ((string_length_zero_iff _).mp hd)
      · have := h2.2
        omega

/-- C6 amended witness: a secondary more than twice as long as the primary
overwrites it and records the source. -/
theorem richness_override_rule_witness :
    wiki_overview_update "abcdef" (some "ab") = some ("abcdef", "wikipedia") := by
  have h := (richness_override_rule.2 "abcdef" (some "ab")).mpr (by decide)
  rcases richness_override_rule.1 "abcdef" (some "ab") with h2 | h2
  · rw [h2] at h
    exact absurd h (by decide)
  · exact h2

/-- Slots no task of `order` writes keep their prior contents. -/
theorem foldl_set_getElem_not_written {α : Type} (M : Nat)
    (result : Fin M → Option α) :
    ∀ (order : List (Fin M)) (slots : List (Option α)) (j : Nat),
      (∀ i ∈ order, i.val ≠ j) →
      (order.foldl (fun s i => s.set i.val (result i)) slots)[j]? = slots[j]? := by
  intro order
  induction order with
  | nil => intro slots j _; rfl
  | cons i rest ih =>
    intro slots j hne
    have hij : i.val ≠ j := hne i (by simp)
    rw [List.foldl_cons, ih _ j fun i' hi' => hne i' (by simp [hi'])]
    simp [List.getElem?_set, hij]

/-- The slot of a task that appears in the completion order holds that
task's result. -/
theorem foldl_set_getElem_written {α : Type} (M : Nat)
    (result : Fin M → Option α) :
    ∀ (order : List (Fin M)) (slots : List (Option α)) (j : Fin M),
      slots.length = M → j ∈ order →
      (order.foldl (fun s i => s.set i.val (result i)) slots)[j.val]?
        = some (result j) := by
  intro order
  induction order with
  | nil => intro slots j _ hj; cases hj
  | cons i rest ih =>
    intro slots j hlen hj
    by_cases hjr : j ∈ rest
    · rw [List.foldl_cons]
      exact ih _ j (by simp [hlen]) hjr
    · have hij : i = j := by
        rcases List.mem_cons.mp hj with h | h
        · exact h.symm
        · exact absurd h hjr
      subst hij
      rw [List.foldl_cons,
        foldl_set_getElem_not_written M result rest _ i.val
          fun i' hi' hv => hjr (Fin.ext hv ▸ hi')]
      simp [List.getElem?_set, hlen, i.isLt]

/-- C4 counterexample: `TMDBClient.get_content_details_batch` runs its tasks
through `asyncio.gather(*tasks, return_exceptions=False)`.  In a batch of
two tasks where the first raises a permanent HTTP 400 and the second
succeeds, the whole call raises — the failure is propagated as a
whole-batch exception instead of leaving one "missing" slot. -/
theorem gather_whole_batch_failure_counterexample :
    get_content_details_batch
        [Except.error (RequestError.httpStatus 400), Except.ok (7 : Nat)]
      = Except.error (RequestError.httpStatus 400) ∧
    ¬get_content_details_batch
        [Except.error (RequestError.httpStatus 400), Except.ok (7 : Nat)]
      = Except.ok [7] :=
  ⟨rfl, by simp [get_content_details_batch, gather_strict]⟩

/-- C4 amended: in `ContentEnricher.enrich_batch`, results are collected
into an index-addressed slot array, so that — whatever order the tasks
complete in, as long as each task completes — slot `j` holds exactly task
`j`'s outcome: a task whose fatal error was caught (`result j = none`)
leaves its slot "missing" while every other slot holds its correct result,
and the batch itself returns normally (the `None`s are filtered out of the
returned list).  `TMDBClient.get_content_details_batch`, by contrast,
propagates a single task failure as a whole-batch exception. -/
theorem enrich_batch_slot_isolation {α : Type} (M : Nat)
    (result : Fin M → Option α) (order : List (Fin M))
    (hcover : ∀ i : Fin M, i ∈ order) :
    run_enrich_batch M result order = List.ofFn result ∧
    (∀ k : Fin M, (run_enrich_batch M result order)[k.val]? = some (result k)) ∧
    enrich_batch_returned M result order = (List.ofFn result).reduceOption := by
  have hdef : run_enrich_batch M result order =
      order.foldl (fun s i => s.set i.val (result i)) (List.replicate M none) := rfl
  have hmain : run_enrich_batch M result order = List.ofFn result := by
    apply List.ext_getElem?
    intro j
    by_cases hj : j < M
    · have h := foldl_set_getElem_written M result order
        (List.replicate M none) ⟨j, hj⟩ (by simp) (hcover ⟨j, hj⟩)
      rw [hdef]
      simpa [List.getElem?_ofFn, List.ofFnNthVal, hj] using h
    · have hfold : ∀ (o : List (Fin M)) (slots : List (Option α)),
          (o.foldl (fun s i => s.set i.val (result i)) slots).length
            = slots.length := by
        intro o
        induction o with
        | nil => intro slots; rfl
        | cons i rest ih => intro slots; rw [List.foldl_cons, ih]; simp
      have hlenL : (run_enrich_batch M result order).length = M := by
        rw [hdef, hfold]
        simp
      rw [List.getElem?_eq_none (by omega), List.getElem?_eq_none (by simp; omega)]
  have hret : enrich_batch_returned M result order =
      (run_enrich_batch M result order).filterMap id := rfl
  refine ⟨hmain, ?_, ?_⟩
  · intro k
    rw [hmain]
    simp [List.getElem?_ofFn, List.ofFnNthVal, k.isLt]
  · rw [hret, hmain]
    rfl

/-- C4 amended witness: two tasks finishing out of order, the second of
which failed with a caught fatal error: slot 0 holds the result, slot 1 is
missing. -/
theorem enrich_batch_slot_isolation_witness :
    (∀ i : Fin 2, i ∈ ([1, 0] : List (Fin 2))) ∧
    run_enrich_batch 2
        (fun i => if i.val = 0 then enrich_content_outcome (Except.ok (42 : Nat)) id
          else enrich_content_outcome (Except.error RequestError.timeout) id)
        [1, 0]
      = List.ofFn
        (fun i : Fin 2 => if i.val = 0 then enrich_content_outcome (Except.ok (42 : Nat)) id
          else enrich_content_outcome (Except.error RequestError.timeout) id) :=
  ⟨by decide,
    (enrich_batch_slot_isolation 2
      (fun i => if i.val = 0 then enrich_content_outcome (Except.ok (42 : Nat)) id
        else enrich_content_outcome (Except.error RequestError.timeout) id)
      [1, 0] (by decide)).1⟩

theorem mem_pending_import_rows (table : List ImportRow) (ct : Option String)
    (r : ImportRow) (h : r ∈ pending_import_rows table ct) :
    r ∈ table ∧ r.status = "pending" := by
  unfold pending_import_rows at h
  cases ct with
  | none =>
    have := List.mem_filter.mp h
    exact ⟨this.1, by simpa using this.2⟩
  | some c =>
    have h1 := (List.mem_filter.mp h).1
    have := List.mem_filter.mp h1
    exact ⟨this.1, by simpa using this.2⟩

theorem mem_pending_enrich_rows (table : List EnrichQueueRow) (qt : String)
    (cycle : Option Nat) (r : EnrichQueueRow)
    (h : r ∈ pending_enrich_rows table qt cycle) :
    r ∈ table ∧ r.status = "pending" := by
  unfold pending_enrich_rows at h
  cases cycle with
  | none =>
    have := List.mem_filter.mp h
    refine ⟨this.1, ?_⟩
    have h2 := this.2
    simp at h2
    exact h2.2
  | some c =>
    have h1 := (List.mem_filter.mp h).1
    have := List.mem_filter.mp h1
    refine ⟨this.1, ?_⟩
    have h2 := this.2
    simp at h2
    exact h2.2

/-- C7: for every queue state and limit, dequeue returns at most `limit`
pending rows, ordered by priority descending then `created_at` ascending
(FIFO within a priority band), every omitted pending row sorting no earlier
than every returned one; and in the scenario — `K1(p=5)`, `K2(p=8)`,
`K3(p=5)` enqueued in that creation order — `dequeue(limit=2)` returns
`[K2, K1]`.  Stated for the import queue and (ordering and bound) for the
enrichment queue, whose query is identical. -/
theorem dequeue_priority_order :
    (∀ (table : List ImportRow) (ct : Option String) (limit : Nat),
      (get_import_queue_batch table ct limit).length ≤ limit ∧
      (get_import_queue_batch table ct limit).Sorted importLE ∧
      (∀ r ∈ get_import_queue_batch table ct limit,
        r ∈ table ∧ r.status = "pending") ∧
      (∀ a ∈ get_import_queue_batch table ct limit,
        ∀ b ∈ pending_import_rows table ct,
          b ∉ get_import_queue_batch table ct limit → importLE a b)) ∧
    (∀ (table : List EnrichQueueRow) (qt : String) (cycle : Option Nat)
        (limit : Nat),
      (get_enrichment_queue_batch table qt cycle limit).length ≤ limit ∧
      (get_enrichment_queue_batch table qt cycle limit).Sorted enrichLE ∧
      (∀ r ∈ get_enrichment_queue_batch table qt cycle limit,
        r ∈ table ∧ r.status = "pending")) ∧
    (get_import_queue_batch
        [ImportRow.mk 1 "movie" 5 "pending" 0,
         ImportRow.mk 2 "movie" 8 "pending" 1,
         ImportRow.mk 3 "movie" 5 "pending" 2] none 2
      = [ImportRow.mk 2 "movie" 8 "pending" 1,
         ImportRow.mk 1 "movie" 5 "pending" 0]) := by
  refine ⟨?_, ?_, by decide⟩
  · intro table ct limit
    obtain ⟨hlen, hsort, hmem, htop⟩ :=
      take_insertionSort_spec importLE (pending_import_rows table ct) limit
    exact ⟨hlen, hsort,
      fun r hr => mem_pending_import_rows table ct r (hmem r hr),
      htop⟩
  · intro table qt cycle limit
    obtain ⟨hlen, hsort, hmem, _⟩ :=
      take_insertionSort_spec enrichLE (pending_enrich_rows table qt cycle) limit
    exact ⟨hlen, hsort,
      fun r hr => mem_pending_enrich_rows table qt cycle r (hmem r hr)⟩

/-- C7 witness: the general bound and membership facts applied to the
scenario table. -/
theorem dequeue_priority_order_witness :
    ImportRow.mk 2 "movie" 8 "pending" 1 ∈
      get_import_queue_batch
        [ImportRow.mk 1 "movie" 5 "pending" 0,
         ImportRow.mk 2 "movie" 8 "pending" 1,
         ImportRow.mk 3 "movie" 5 "pending" 2] none 2 ∧
    (ImportRow.mk 2 "movie" 8 "pending" 1 ∈
        ([ImportRow.mk 1 "movie" 5 "pending" 0,
          ImportRow.mk 2 "movie" 8 "pending" 1,
          ImportRow.mk 3 "movie" 5 "pending" 2] : List ImportRow) ∧
      (ImportRow.mk 2 "movie" 8 "pending" 1).status = "pending") :=
  ⟨by decide,
    (dequeue_priority_order.1
        [ImportRow.mk 1 "movie" 5 "pending" 0,
         ImportRow.mk 2 "movie" 8 "pending" 1,
         ImportRow.mk 3 "movie" 5 "pending" 2] none 2).2.2.1
      (ImportRow.mk 2 "movie" 8 "pending" 1) (by decide)⟩

end GDVG
